import Mathlib

/-!
Shallow embedding of the wild-yak dialog-management engine
(src/src/wild-yak.js).

Modelling conventions:
* JavaScript's in-place mutation of the session object is embedded as
  explicit state passing: every stack operation returns the session it
  would have left behind, together with an outcome (`Except`) standing
  for normal return versus a thrown error.
* `async`/`await` sequencing is embedded as ordinary sequential
  evaluation; externally supplied `init`, `afterInit`, `parse`,
  `handler` and continuation functions are embedded as pure Lean
  functions (their only engine-visible effect is their return value).
* JavaScript reference equality (`!==`) on context objects is embedded
  as structural (decidable) equality on the `Context` value.  Distinct
  references compared by the discipline checks in the claims are
  structurally distinct, so the embedding is faithful for them.
* To make "f was invoked" observable, the engine emits an `Event`
  trace: one event per `init`, `afterInit`, continuation, `parse` and
  `handler` invocation, in invocation order.
* Continuations are stored on contexts in JavaScript as closures; to
  avoid a negative occurrence the embedding stores an abstract
  continuation token of type `κ`, and the stack operations receive the
  interpretation `app : κ → State κ → JSValue → JSValue` used when a
  continuation is invoked.
-/

namespace WildYak

/-- JavaScript runtime values, as far as the engine inspects them
(truthiness checks and array-versus-single normalization).  Numbers are
embedded as integers; no claim depends on float behaviour. -/
inductive JSValue where
  | undef
  | null
  | bool (b : Bool)
  | num (n : Int)
  | str (s : String)
  | arr (elems : List JSValue)

mutual

/-- Decidable equality on embedded JavaScript values (the deriving
handler does not support the nested `List` occurrence). -/
def JSValue.decEq : (a b : JSValue) → Decidable (a = b)
  | .undef, .undef => .isTrue rfl
  | .undef, .null => .isFalse (fun h => nomatch h)
  | .undef, .bool _ => .isFalse (fun h => nomatch h)
  | .undef, .num _ => .isFalse (fun h => nomatch h)
  | .undef, .str _ => .isFalse (fun h => nomatch h)
  | .undef, .arr _ => .isFalse (fun h => nomatch h)
  | .null, .undef => .isFalse (fun h => nomatch h)
  | .null, .null => .isTrue rfl
  | .null, .bool _ => .isFalse (fun h => nomatch h)
  | .null, .num _ => .isFalse (fun h => nomatch h)
  | .null, .str _ => .isFalse (fun h => nomatch h)
  | .null, .arr _ => .isFalse (fun h => nomatch h)
  | .bool _, .undef => .isFalse (fun h => nomatch h)
  | .bool _, .null => .isFalse (fun h => nomatch h)
  | .bool a, .bool b =>
      if h : a = b then .isTrue (by rw [h]) else .isFalse (fun hh => h (by cases hh; rfl))
  | .bool _, .num _ => .isFalse (fun h => nomatch h)
  | .bool _, .str _ => .isFalse (fun h => nomatch h)
  | .bool _, .arr _ => .isFalse (fun h => nomatch h)
  | .num _, .undef => .isFalse (fun h => nomatch h)
  | .num _, .null => .isFalse (fun h => nomatch h)
  | .num _, .bool _ => .isFalse (fun h => nomatch h)
  | .num a, .num b =>
      if h : a = b then .isTrue (by rw [h]) else .isFalse (fun hh => h (by cases hh; rfl))
  | .num _, .str _ => .isFalse (fun h => nomatch h)
  | .num _, .arr _ => .isFalse (fun h => nomatch h)
  | .str _, .undef => .isFalse (fun h => nomatch h)
  | .str _, .null => .isFalse (fun h => nomatch h)
  | .str _, .bool _ => .isFalse (fun h => nomatch h)
  | .str _, .num _ => .isFalse (fun h => nomatch h)
  | .str a, .str b =>
      if h : a = b then .isTrue (by rw [h]) else .isFalse (fun hh => h (by cases hh; rfl))
  | .str _, .arr _ => .isFalse (fun h => nomatch h)
  | .arr _, .undef => .isFalse (fun h => nomatch h)
  | .arr _, .null => .isFalse (fun h => nomatch h)
  | .arr _, .bool _ => .isFalse (fun h => nomatch h)
  | .arr _, .num _ => .isFalse (fun h => nomatch h)
  | .arr _, .str _ => .isFalse (fun h => nomatch h)
  | .arr a, .arr b =>
      match JSValue.decEqList a b with
      | .isTrue h => .isTrue (by rw [h])
      | .isFalse h => .isFalse (fun hh => h (by cases hh; rfl))

/-- Decidable equality on lists of embedded JavaScript values. -/
def JSValue.decEqList : (xs ys : List JSValue) → Decidable (xs = ys)
  | [], [] => .isTrue rfl
  | [], _ :: _ => .isFalse (fun h => nomatch h)
  | _ :: _, [] => .isFalse (fun h => nomatch h)
  | x :: xs, y :: ys =>
      match JSValue.decEq x y with
      | .isFalse h1 => .isFalse (fun h => h1 (by cases h; rfl))
      | .isTrue h1 =>
          match JSValue.decEqList xs ys with
          | .isTrue h2 => .isTrue (by rw [h1, h2])
          | .isFalse h2 => .isFalse (fun h => h2 (by cases h; rfl))

end

instance : DecidableEq JSValue := JSValue.decEq

/-- JavaScript truthiness of an embedded value: `undefined`, `null`,
`false`, `0` and `""` are falsy; every array (including `[]`) is
truthy. -/
def truthy : JSValue → Bool
  | .undef => false
  | .null => false
  | .bool b => b
  | .num n => n != 0
  | .str s => s != ""
  | .arr _ => true

/-- `[].concat(v)` for a single JavaScript value `v`: an array is
spread (one level), any other value becomes a one-element list. -/
def jsConcatSingle : JSValue → List JSValue
  | .arr xs => xs
  | v => [v]

/-- The external (channel) session handed to the engine by the host.
The engine itself only reads `id` and `type` (lines 238-239 of the
source); hooks receive it opaquely. -/
structure ExtSession where
  id : String
  type : String
deriving DecidableEq

/-- Observable invocations performed by the engine, in order:
`initRun t` = `t.init` was called, `afterInitRun t` = `t.afterInit`
was called, `contRun t` = the continuation stored on a popped context
of topic `t` was called, `parseRun h` / `handlerRun h` = hook `h`'s
`parse` / `handler` was called. -/
inductive Event where
  | initRun (topic : String)
  | afterInitRun (topic : String)
  | contRun (topic : String)
  | parseRun (hook : String)
  | handlerRun (hook : String)
deriving DecidableEq

/-- Errors thrown by the engine: `err` is a `throw new Error(msg)` from
the engine's own code; `typeError` is the TypeError JavaScript raises
when the engine reads a property of `undefined`. -/
inductive JsErr where
  | err (msg : String)
  | typeError (msg : String)
deriving DecidableEq

/-- One activation of a topic on a session's context stack
(lines 104-112 of the source).  The JavaScript object stores the topic
and parent-topic objects and a back-reference to its session; the
embedding keeps the topic names (the dispatcher resolves the topic by
name against the registry anyway, line 184) and passes the session
explicitly.  `cb` is the abstract continuation token. -/
structure Context (κ : Type) where
  data : JSValue
  topicName : String
  parentTopicName : Option String
  activeHooks : List String
  disabledHooks : List String
  cb : Option κ
deriving DecidableEq

/-- The `state` record handed to hooks and continuations:
`{context, session}`.  `context` is `none` when the JavaScript value
would be `undefined` (a continuation invoked after the stack emptied). -/
structure State (κ : Type) where
  context : Option (Context κ)
  session : ExtSession

/-- A hook: a named `(parse, handler)` pair (lines 63-74).  `parse`
returns `JSValue.undef` to mean "did not match". -/
structure Hook (κ : Type) where
  name : String
  parse : State κ → JSValue → JSValue
  handler : State κ → JSValue → JSValue

/-- A topic descriptor (lines 19-37). -/
structure Topic (κ : Type) where
  name : String
  isRoot : Bool
  init : JSValue → ExtSession → JSValue
  callbacks : Option (List (State κ → JSValue → JSValue))
  hooks : List (Hook κ)
  afterInit : Option (State κ → ExtSession → JSValue)

/-- The persisted session record (line 252). -/
structure YakSession (κ : Type) where
  id : String
  type : String
  contexts : List (Context κ)
  virgin : Bool
  topics : List (Topic κ)

/-- Result of one stack operation: the outcome (normal return value or
thrown error), the session as the call leaves it, and the trace of
invocations the call performed. -/
structure CallResult (κ : Type) (α : Type) where
  outcome : Except JsErr α
  session : YakSession κ
  events : List Event

/-- `activeContext(yakSession)`: `yakSession.contexts.slice(-1)[0]`
(lines 77-79) — the last element of the stack, if any. -/
def activeContext (ys : YakSession κ) : Option (Context κ) :=
  ys.contexts.getLast?

/-- `findTopic(name, topics)`: `topics.filter(t => t.name === name)[0]`
(lines 82-84); `none` embeds the `undefined` of an empty filter. -/
def findTopic (name : String) (topics : List (Topic κ)) : Option (Topic κ) :=
  (topics.filter (fun t => t.name == name)).head?

/-- The new context built by `enterTopic` (lines 104-112): data from
`newTopic.init`, the entered topic, the topic entered from, empty
allow/deny lists, and the supplied continuation. -/
def mkContext (newTopic : Topic κ) (parentTopic : Option (Topic κ))
    (session : ExtSession) (args : JSValue) (cb : Option κ) : Context κ :=
  { data := newTopic.init args session
    topicName := newTopic.name
    parentTopicName := parentTopic.map Topic.name
    activeHooks := []
    disabledHooks := []
    cb := cb }

/-- The part of `enterTopic` after the stack-discipline check
(lines 104-122): run `init`, build the context, replace the stack if
the topic is root or push otherwise, then run `afterInit` if present
(its return value is discarded). -/
def enterTopicBody (parentTopic : Option (Topic κ)) (session : ExtSession)
    (ys : YakSession κ) (newTopic : Topic κ) (args : JSValue) (cb : Option κ) :
    CallResult κ Unit :=
  let newContext := mkContext newTopic parentTopic session args cb
  let contexts := if newTopic.isRoot then [newContext] else ys.contexts ++ [newContext]
  let ys1 := { ys with contexts := contexts }
  match newTopic.afterInit with
  | some f =>
      let _ := f { context := some newContext, session := session } session
      { outcome := .ok (), session := ys1,
        events := [Event.initRun newTopic.name, Event.afterInitRun newTopic.name] }
  | none =>
      { outcome := .ok (), session := ys1, events := [Event.initRun newTopic.name] }

/-- `enterTopic(topic, state, newTopic, args, cb)` (lines 87-123).
`ctx` is `state.context` and `ys` the session it points at.  If the
stack is non-empty and the caller's context is not its top, throw
before anything else runs: the error result keeps the session
unchanged and an empty trace (`newTopic.init` is not called). -/
def enterTopic [DecidableEq κ] (parentTopic : Option (Topic κ)) (ctx : Context κ)
    (session : ExtSession) (ys : YakSession κ) (newTopic : Topic κ)
    (args : JSValue) (cb : Option κ) : CallResult κ Unit :=
  match activeContext ys with
  | some contextOnStack =>
      if ctx ≠ contextOnStack then
        { outcome := .error (JsErr.err "You can only enter a new context from the last context.")
          session := ys, events := [] }
      else enterTopicBody parentTopic session ys newTopic args cb
  | none => enterTopicBody parentTopic session ys newTopic args cb

/-- `exitTopic(topic, state, args)` (lines 126-144).  The `topic`
parameter is unused by the source body.  If the caller's context is not
the current top (in particular whenever the stack is empty, since a
defined context is never `undefined`), throw; otherwise pop, and if the
popped context carries a continuation, invoke it with the new top and
`args` and return its result, else return `undefined`. -/
def exitTopic [DecidableEq κ] (app : κ → State κ → JSValue → JSValue)
    ( _topic : Option (Topic κ)) (ctx : Context κ) (session : ExtSession)
    (ys : YakSession κ) (args : JSValue) : CallResult κ JSValue :=
  match activeContext ys with
  | none =>
      { outcome := .error (JsErr.err "You can only exit from the current context.")
        session := ys, events := [] }
  | some top =>
      if ctx ≠ top then
        { outcome := .error (JsErr.err "You can only exit from the current context.")
          session := ys, events := [] }
      else
        let ys1 := { ys with contexts := ys.contexts.dropLast }
        match top.cb with
        | some k =>
            let parentContext := activeContext ys1
            { outcome := .ok (app k { context := parentContext, session := session } args)
              session := ys1, events := [Event.contRun top.topicName] }
        | none =>
            { outcome := .ok JSValue.undef, session := ys1, events := [] }

/-- `disableHooksExcept(state, list)` (lines 147-149): replace the
context's allow-list. -/
def disableHooksExcept (ctx : Context κ) (list : List String) : Context κ :=
  { ctx with activeHooks := list }

/-- `disableHooks(state, list)` (lines 152-154): replace the context's
deny-list. -/
def disableHooks (ctx : Context κ) (list : List String) : Context κ :=
  { ctx with disabledHooks := list }

/-- `runHook(hook, state, message)` (lines 157-166): run `parse`; on a
defined result run `handler` and return `(true, its result)`, else
`(false, undefined)`. -/
def runHook (hook : Hook κ) (st : State κ) (message : JSValue) :
    (Bool × JSValue) × List Event :=
  if hook.parse st message ≠ JSValue.undef then
    ((true, hook.handler st (hook.parse st message)),
      [Event.parseRun hook.name, Event.handlerRun hook.name])
  else
    ((false, JSValue.undef), [Event.parseRun hook.name])

/-- The local-phase loop of `processMessage` (lines 187-192): run the
hooks in declaration order, stopping at the first that matches. -/
def tryHooks (hooks : List (Hook κ)) (st : State κ) (message : JSValue) :
    (Bool × JSValue) × List Event :=
  match hooks with
  | [] => ((false, JSValue.undef), [])
  | h :: rest =>
      let r := runHook h st message
      if r.1.1 then r
      else
        let r2 := tryHooks rest st message
        (r2.1, r.2 ++ r2.2)

/-- The eligibility condition of the global phase, exactly as written
on lines 204-207: no active context, or the hook's name is in
`activeHooks`, or `activeHooks` is empty and (`disabledHooks` is empty
or does not contain the name). -/
def globalHookEligible (context : Option (Context κ)) (hookName : String) : Bool :=
  match context with
  | none => true
  | some c =>
      c.activeHooks.contains hookName ||
        (c.activeHooks.length == 0 &&
          (c.disabledHooks.length == 0 || !(c.disabledHooks.contains hookName)))

/-- The global-phase loop of `processMessage` (lines 202-214): skip
ineligible hooks; run eligible ones in declaration order with
`context || globalContext` as the state's context, stopping at the
first that matches. -/
def tryGlobalHooks (hooks : List (Hook κ)) (context : Option (Context κ))
    (globalContext : Context κ) (session : ExtSession) (message : JSValue) :
    (Bool × JSValue) × List Event :=
  match hooks with
  | [] => ((false, JSValue.undef), [])
  | h :: rest =>
      if globalHookEligible context h.name then
        let r := runHook h { context := some (context.getD globalContext), session := session } message
        if r.1.1 then r
        else
          let r2 := tryGlobalHooks rest context globalContext session message
          (r2.1, r.2 ++ r2.2)
      else tryGlobalHooks rest context globalContext session message

/-- `handlerResult ? [].concat(handlerResult) : []` (line 216). -/
def normalizeResult (r : JSValue) : List JSValue :=
  if truthy r then jsConcatSingle r else []

/-- `processMessage(session, message, yakSession, globalTopic,
globalContext)` (lines 169-217).  The local phase resolves the active
context's topic by name in the registry (a miss makes the subsequent
`.hooks` read throw a TypeError); the global phase is only reached when
the local phase did not handle the message (so an absent global topic
only throws then, `!handled && globalTopic.hooks`). -/
def processMessage (session : ExtSession) (message : JSValue) (ys : YakSession κ)
    (globalTopic : Option (Topic κ)) (globalContext : Context κ) :
    Except JsErr (List JSValue × List Event) :=
  match activeContext ys with
  | some context =>
      match findTopic context.topicName ys.topics with
      | none => .error (JsErr.typeError "cannot read hooks of undefined")
      | some currentTopic =>
          let lr := tryHooks currentTopic.hooks { context := some context, session := session } message
          if lr.1.1 then
            .ok (normalizeResult lr.1.2, lr.2)
          else
            match globalTopic with
            | none => .error (JsErr.typeError "cannot read hooks of undefined")
            | some gt =>
                let gr := tryGlobalHooks gt.hooks (some context) globalContext session message
                .ok (normalizeResult gr.1.2, lr.2 ++ gr.2)
  | none =>
      match globalTopic with
      | none => .error (JsErr.typeError "cannot read hooks of undefined")
      | some gt =>
          let gr := tryGlobalHooks gt.hooks none globalContext session message
          .ok (normalizeResult gr.1.2, gr.2)

/-- Options accepted by `defTopic` (lines 22-27). -/
structure TopicOptions (κ : Type) where
  isRoot : Option Bool
  hooks : Option (List (Hook κ))
  callbacks : Option (List (State κ → JSValue → JSValue))
  afterInit : Option (State κ → ExtSession → JSValue)

/-- `defTopic(name, init, options)` (lines 19-37): `isRoot` defaults to
`false` when undefined, `hooks` to `[]` (`options.hooks || []`; a
present array, even empty, is truthy and kept). -/
def defTopic (name : String) (init : JSValue → ExtSession → JSValue)
    (options : TopicOptions κ) : Topic κ :=
  { name := name
    isRoot := options.isRoot.getD false
    init := init
    callbacks := options.callbacks
    hooks := options.hooks.getD []
    afterInit := options.afterInit }

/-- `defHook(topic, name, parse, handler)` (lines 63-74): bind the pair
as a hook; the topic argument is unused. -/
def defHook ( _topic : Topic κ) (name : String)
    (parse : State κ → JSValue → JSValue)
    (handler : State κ → JSValue → JSValue) : Hook κ :=
  { name := name, parse := parse, handler := handler }

/-- The message given to a pattern hook's parse: the engine only reads
its `text` property (line 49). -/
structure StrMessage where
  text : String
deriving DecidableEq

/-- The parse result of a pattern hook (line 53): the original message,
the index of the matching pattern, and its match data. -/
structure RegexParseResult where
  message : StrMessage
  i : Nat
  matchData : List String
deriving DecidableEq

/-- A JavaScript regular-expression object, abstracted to its `exec`
behaviour on a string: `none` embeds the `null` of a failed match. -/
structure JSRegExp where
  exec : String → Option (List String)

/-- Whether `pat` occurs as a contiguous substring of `text`. -/
def strContains (text pat : String) : Bool :=
  let t := text.toList
  let p := pat.toList
  (List.range (t.length + 1)).any (fun k => p.isPrefixOf (t.drop k))

/-- A flagless literal JavaScript regex such as `/foo/`: `exec`
succeeds exactly when the literal occurs anywhere in the string. -/
def regexLit (pat : String) : JSRegExp :=
  { exec := fun text => if strContains text pat then some [pat] else none }

/-- The indexed `for` loop of `defPattern`'s parse (lines 50-55): try
each pattern in list order, returning the index and match of the first
whose `exec` succeeds. -/
def execLoop (text : String) : List JSRegExp → Nat → Option (Nat × List String)
  | [], _ => none
  | p :: rest, i =>
      match p.exec text with
      | some ms => some (i, ms)
      | none => execLoop text rest (i + 1)

/-- The parse function `defPattern` builds (lines 47-57): if a message
is present, scan the patterns in order against its text; undefined
(here `none`) otherwise or when no pattern matches. -/
def patternsParse (patterns : List JSRegExp) (message : Option StrMessage) :
    Option RegexParseResult :=
  match message with
  | none => none
  | some m =>
      match execLoop m.text patterns 0 with
      | some (i, ms) => some { message := m, i := i, matchData := ms }
      | none => none

/-- A hook built by `defPattern`, with its parse result kept at its
precise type. -/
structure PatternHook (κ : Type) where
  name : String
  parse : State κ → Option StrMessage → Option RegexParseResult
  handler : State κ → RegexParseResult → JSValue

/-- `defPattern(topic, name, patterns, handler)` (lines 39-60): a hook
whose parse ignores the state and runs the pattern loop on the message. -/
def defPattern ( _topic : Topic κ) (name : String) (patterns : List JSRegExp)
    (handler : State κ → RegexParseResult → JSValue) : PatternHook κ :=
  { name := name
    parse := fun _ message => patternsParse patterns message
    handler := handler }

/-- Modelled from the spec: the per-channel message formatters
(`src/formatters/fb`, `src/formatters/web`) are external collaborator
modules not present under `src`; the spec gives their contract as
`parseIncomingMessage(raw) -> Message` and
`mergeIncomingMessages(raw[]) -> Message`. -/
structure Formatter where
  parseIncomingMessage : JSValue → JSValue
  mergeIncomingMessages : List JSValue → JSValue

/-- The `messageOptions` variants of `InitOptionsType` (lines 223-229). -/
inductive MessageStrategy where
  | custom (messageParser : List JSValue → JSValue)
  | single
  | merge
  | first
  | last

/-- The options record taken by `init` (lines 220-230); each field may
be absent, in which case the source substitutes a default. -/
structure InitOptions where
  getSessionId : Option (ExtSession → String)
  getSessionType : Option (ExtSession → String)
  messageOptions : Option MessageStrategy

/-- Lines 250-252: the session the handler works on — the saved session
with the current registry spliced in, or a fresh virgin session. -/
def loadYakSession (topics : List (Topic κ)) (getSessionId getSessionType : ExtSession → String)
    (savedSession : Option (YakSession κ)) (session : ExtSession) : YakSession κ :=
  match savedSession with
  | some s => { s with topics := topics }
  | none =>
      { id := getSessionId session, type := getSessionType session,
        contexts := [], virgin := true, topics := topics }

/-- The global context built on line 254: allow/deny lists empty, no
data, no continuation; its topic field holds the global topic, whose
name is `"global"` by construction. -/
def mkGlobalContext (κ : Type) : Context κ :=
  { data := JSValue.undef, topicName := "global", parentTopicName := none,
    activeHooks := [], disabledHooks := [], cb := none }

/-- The `"single"` strategy loop (lines 288-297): process each message
of the batch in order; after each, `if (result) results = result` —
`result` is always an array, hence truthy, so the accumulator is
overwritten every iteration. -/
def processBatchSingle (session : ExtSession) (ys : YakSession κ)
    (globalTopic : Option (Topic κ)) (globalContext : Context κ) (fmt : Formatter) :
    List JSValue → List JSValue → Except JsErr (List JSValue × List Event)
  | [], results => .ok (results, [])
  | m :: rest, results =>
      match processMessage session (fmt.parseIncomingMessage m) ys globalTopic globalContext with
      | .error e => .error e
      | .ok (r, ev) =>
          let results1 := if truthy (JSValue.arr r) then r else results
          match processBatchSingle session ys globalTopic globalContext fmt rest results1 with
          | .error e => .error e
          | .ok (finalResults, ev2) => .ok (finalResults, ev ++ ev2)

/-- One invocation of the handler returned by `init` (lines 244-320),
with the external collaborators passed in explicitly: `formatters` is
the channel-type registry (line 13-16, implementations external),
`savedSession` is what `libSession.get` returned, and the returned
session is what `libSession.save` receives (nothing is saved when an
error aborts the call).  The body: load or create the session; if
virgin, clear the flag and, when a `"main"` topic is registered, enter
it via `enterTopic` from the global context; then select the message(s)
per the configured strategy and dispatch through `processMessage`. -/
def handleMessages [DecidableEq κ] (allTopics : List (Topic κ)) (options : InitOptions)
    (formatters : String → Option Formatter) (savedSession : Option (YakSession κ))
    (session : ExtSession) (messages : List JSValue) :
    Except JsErr (YakSession κ × List JSValue × List Event) :=
  let globalTopic := findTopic "global" allTopics
  let topics := allTopics.filter (fun t => t.name ≠ "global")
  let getSessionId := options.getSessionId.getD (fun s => s.id)
  let getSessionType := options.getSessionType.getD (fun s => s.type)
  let messageOptions := options.messageOptions.getD MessageStrategy.last
  let ys := loadYakSession topics getSessionId getSessionType savedSession session
  let globalContext := mkGlobalContext κ
  let boot : Except JsErr (YakSession κ × List Event) :=
    if ys.virgin then
      let ys1 := { ys with virgin := false }
      match findTopic "main" ys1.topics with
      | some mainTopic =>
          let r := enterTopic globalTopic globalContext session ys1 mainTopic JSValue.undef none
          match r.outcome with
          | .ok _ => .ok (r.session, r.events)
          | .error e => .error e
      | none => .ok (ys1, [])
    else .ok (ys, [])
  match boot with
  | .error e => .error e
  | .ok (ys2, ev0) =>
      match formatters session.type with
      | none => .error (JsErr.typeError "no formatter for session type")
      | some fmt =>
          let dispatch : Except JsErr (List JSValue × List Event) :=
            match messageOptions with
            | .last =>
                processMessage session (fmt.parseIncomingMessage ((messages.getLast?).getD JSValue.undef))
                  ys2 globalTopic globalContext
            | .first =>
                processMessage session (fmt.parseIncomingMessage ((messages.head?).getD JSValue.undef))
                  ys2 globalTopic globalContext
            | .single =>
                processBatchSingle session ys2 globalTopic globalContext fmt messages []
            | .merge =>
                processMessage session (fmt.mergeIncomingMessages messages) ys2 globalTopic globalContext
            | .custom parser =>
                processMessage session (parser (messages.map fmt.parseIncomingMessage))
                  ys2 globalTopic globalContext
          match dispatch with
          | .error e => .error e
          | .ok (results, ev1) => .ok (ys2, results, ev0 ++ ev1)

/-- The eligibility rule as the specification words it: if the
allow-list is non-empty the name must appear in it; else if the
deny-list is non-empty the name must not appear in it; else every hook
is eligible; with no active context every hook is eligible.  Stated
separately from `globalHookEligible` (which transcribes the source
condition) so the two can be compared. -/
def globalHookEligibleSpec (context : Option (Context κ)) (hookName : String) : Bool :=
  match context with
  | none => true
  | some c =>
      if c.activeHooks ≠ [] then c.activeHooks.contains hookName
      else if c.disabledHooks ≠ [] then !(c.disabledHooks.contains hookName)
      else true

/-- Whether an event records a continuation invocation. -/
def Event.isContRun : Event → Bool
  | .contRun _ => true
  | _ => false

/-- The trace `processMessage` produces for one message of a
`"single"`-strategy batch (empty when the message's dispatch throws). -/
def pmEvents (session : ExtSession) (ys : YakSession κ) (globalTopic : Option (Topic κ))
    (globalContext : Context κ) (fmt : Formatter) (m : JSValue) : List Event :=
  match processMessage session (fmt.parseIncomingMessage m) ys globalTopic globalContext with
  | .ok (_, ev) => ev
  | .error _ => []

/-! Concrete fixtures used by witnesses and counterexamples.  The
continuation-token type is instantiated with `Unit`. -/

/-- A concrete external session. -/
def exSession : ExtSession := ⟨"s1", "web"⟩

/-- A formatter whose parse is the identity (message batches are
already normalized values in these runs). -/
def exFmt : Formatter := ⟨fun v => v, fun _ => JSValue.undef⟩

/-- A local hook that never matches. -/
def exHookNo : Hook Unit :=
  { name := "no", parse := fun _ _ => JSValue.undef, handler := fun _ _ => JSValue.str "NO" }

/-- A local hook that always matches and answers `"hi"`. -/
def exHookYes : Hook Unit :=
  { name := "yes", parse := fun _ _ => JSValue.num 1, handler := fun _ _ => JSValue.str "hi" }

/-- A global hook named `"a"` that always matches. -/
def exGHookA : Hook Unit :=
  { name := "a", parse := fun _ _ => JSValue.num 2, handler := fun _ _ => JSValue.str "ga" }

/-- A global hook named `"b"` that always matches. -/
def exGHookB : Hook Unit :=
  { name := "b", parse := fun _ _ => JSValue.num 3, handler := fun _ _ => JSValue.str "gb" }

/-- A root topic named `"main"` with the two local hooks. -/
def exMain : Topic Unit :=
  { name := "main", isRoot := true, init := fun _ _ => JSValue.num 3,
    callbacks := none, hooks := [exHookNo, exHookYes], afterInit := none }

/-- The global topic, carrying the two global hooks. -/
def exGlobalTopic : Topic Unit :=
  { name := "global", isRoot := false, init := fun _ _ => JSValue.undef,
    callbacks := none, hooks := [exGHookA, exGHookB], afterInit := none }

/-- A non-root topic named `"t"` with no hooks. -/
def exTopicT : Topic Unit :=
  { name := "t", isRoot := false, init := fun _ _ => JSValue.num 7,
    callbacks := none, hooks := [], afterInit := none }

/-- The registry used by the concrete runs. -/
def exTopics : List (Topic Unit) := [exMain, exGlobalTopic, exTopicT]

/-- A context for `"main"` sitting below the top of a stack. -/
def exCtx1 : Context Unit :=
  { data := JSValue.num 3, topicName := "main", parentTopicName := some "global",
    activeHooks := [], disabledHooks := [], cb := none }

/-- A context for `"t"` sitting on top of a stack, carrying a
continuation token. -/
def exCtx2 : Context Unit :=
  { data := JSValue.num 7, topicName := "t", parentTopicName := some "main",
    activeHooks := [], disabledHooks := [], cb := some () }

/-- A session whose stack is `[exCtx1, exCtx2]` (top `exCtx2`). -/
def exYs2 : YakSession Unit := ⟨"s1", "web", [exCtx1, exCtx2], false, exTopics⟩

/-- A saved session that is still virgin with an empty stack. -/
def exVirginSession : YakSession Unit := ⟨"s1", "web", [], true, []⟩

/-- The events of one handler invocation (`[]` when the call threw). -/
def runEvents (r : Except JsErr (YakSession κ × List JSValue × List Event)) : List Event :=
  match r with
  | .ok (_, _, evs) => evs
  | .error _ => []

/-! Helper lemmas about the stack operations. -/

/-- When the caller's context is the top (or the stack is empty), the
discipline check of `enterTopic` passes and the body runs. -/
theorem enterTopic_eq_body [DecidableEq κ] (parentTopic : Option (Topic κ))
    (ctx : Context κ) (session : ExtSession) (ys : YakSession κ) (newTopic : Topic κ)
    (args : JSValue) (cb : Option κ)
    (hdisc : activeContext ys = none ∨ activeContext ys = some ctx) :
    enterTopic parentTopic ctx session ys newTopic args cb =
      enterTopicBody parentTopic session ys newTopic args cb := by
  unfold enterTopic
  rcases hdisc with h | h <;> simp [h]

/-- The body of `enterTopic` always returns normally. -/
theorem enterTopicBody_outcome (parentTopic : Option (Topic κ)) (session : ExtSession)
    (ys : YakSession κ) (newTopic : Topic κ) (args : JSValue) (cb : Option κ) :
    (enterTopicBody parentTopic session ys newTopic args cb).outcome = .ok () := by
  cases h : newTopic.afterInit <;> simp [enterTopicBody, h]

/-- The session left by the body of `enterTopic`: the stack is replaced
by the singleton new context for a root topic and extended by it
otherwise; the other session fields are untouched. -/
theorem enterTopicBody_session (parentTopic : Option (Topic κ)) (session : ExtSession)
    (ys : YakSession κ) (newTopic : Topic κ) (args : JSValue) (cb : Option κ) :
    (enterTopicBody parentTopic session ys newTopic args cb).session =
      { ys with contexts :=
          if newTopic.isRoot then [mkContext newTopic parentTopic session args cb]
          else ys.contexts ++ [mkContext newTopic parentTopic session args cb] } := by
  cases h : newTopic.afterInit <;> simp [enterTopicBody, h]

/-- The trace of the body of `enterTopic` contains no continuation
invocation. -/
theorem enterTopicBody_no_contRun (parentTopic : Option (Topic κ)) (session : ExtSession)
    (ys : YakSession κ) (newTopic : Topic κ) (args : JSValue) (cb : Option κ) :
    ((enterTopicBody parentTopic session ys newTopic args cb).events.all
      (fun e => !(Event.isContRun e))) = true := by
  cases h : newTopic.afterInit <;> simp [enterTopicBody, h, Event.isContRun]

/-! Claim theorems. -/

/-- C1: a call to `enterTopic` or `exitTopic` whose caller state's
context is not the current top of the non-empty context stack fails
with the stack-discipline error, and the failed call leaves the
session (in particular its context stack) exactly as it was and
performs no invocation at all — the check fires before
`newTopic.init`, so no new context is created. -/
theorem c1_stack_discipline [DecidableEq κ] (ys : YakSession κ) (top ctx : Context κ)
    (session : ExtSession) (parentTopic : Option (Topic κ)) (newTopic : Topic κ)
    (args : JSValue) (cb : Option κ) (app : κ → State κ → JSValue → JSValue)
    (t : Option (Topic κ)) (exitArgs : JSValue)
    (htop : activeContext ys = some top) (hne : ctx ≠ top) :
    enterTopic parentTopic ctx session ys newTopic args cb =
      { outcome := .error (JsErr.err "You can only enter a new context from the last context.")
        session := ys, events := [] }
    ∧ exitTopic app t ctx session ys exitArgs =
      { outcome := .error (JsErr.err "You can only exit from the current context.")
        session := ys, events := [] } := by
  constructor
  · unfold enterTopic; rw [htop]; simp [hne]
  · unfold exitTopic; rw [htop]; simp [hne]

/-- C1 witness: on the concrete stack `[exCtx1, exCtx2]`, calling with
the non-top `exCtx1` satisfies the hypotheses and both calls fail as
stated. -/
theorem c1_stack_discipline_witness :
    activeContext exYs2 = some exCtx2 ∧ exCtx1 ≠ exCtx2 ∧
    (enterTopic (some exMain) exCtx1 exSession exYs2 exTopicT JSValue.undef none =
      { outcome := .error (JsErr.err "You can only enter a new context from the last context.")
        session := exYs2, events := [] }
    ∧ exitTopic (fun _ _ _ => JSValue.undef) none exCtx1 exSession exYs2 JSValue.undef =
      { outcome := .error (JsErr.err "You can only exit from the current context.")
        session := exYs2, events := [] }) :=
  ⟨by decide, by decide,
    c1_stack_discipline exYs2 exCtx2 exCtx1 exSession (some exMain) exTopicT JSValue.undef none
      (fun _ _ _ => JSValue.undef) none JSValue.undef (by decide) (by decide)⟩

/-- C2: entering a topic with `isRoot = true` (from the top context or
an empty stack) succeeds, makes the session's context stack exactly the
one-element stack holding the newly built context, and invokes no
continuation stored on any discarded prior context (the trace contains
no continuation event). -/
theorem c2_root_replaces_stack [DecidableEq κ] (ys : YakSession κ) (ctx : Context κ)
    (session : ExtSession) (parentTopic : Option (Topic κ)) (newTopic : Topic κ)
    (args : JSValue) (cb : Option κ)
    (hroot : newTopic.isRoot = true)
    (hdisc : activeContext ys = none ∨ activeContext ys = some ctx) :
    (enterTopic parentTopic ctx session ys newTopic args cb).outcome = .ok ()
    ∧ (enterTopic parentTopic ctx session ys newTopic args cb).session.contexts =
        [mkContext newTopic parentTopic session args cb]
    ∧ (enterTopic parentTopic ctx session ys newTopic args cb).session.contexts.length = 1
    ∧ ((enterTopic parentTopic ctx session ys newTopic args cb).events.all
        (fun e => !(Event.isContRun e))) = true := by
  rw [enterTopic_eq_body parentTopic ctx session ys newTopic args cb hdisc]
  refine ⟨enterTopicBody_outcome .., ?_, ?_, enterTopicBody_no_contRun ..⟩
  · rw [enterTopicBody_session]; simp [hroot]
  · rw [enterTopicBody_session]; simp [hroot]

/-- C2 witness: entering the root topic `exMain` from the top of the
concrete two-context stack collapses it to one context. -/
theorem c2_root_replaces_stack_witness :
    exMain.isRoot = true ∧ activeContext exYs2 = some exCtx2 ∧
    ((enterTopic none exCtx2 exSession exYs2 exMain JSValue.undef none).outcome = .ok ()
    ∧ (enterTopic none exCtx2 exSession exYs2 exMain JSValue.undef none).session.contexts =
        [mkContext exMain none exSession JSValue.undef none]
    ∧ (enterTopic none exCtx2 exSession exYs2 exMain JSValue.undef none).session.contexts.length = 1
    ∧ ((enterTopic none exCtx2 exSession exYs2 exMain JSValue.undef none).events.all
        (fun e => !(Event.isContRun e))) = true) :=
  ⟨rfl, by decide,
    c2_root_replaces_stack exYs2 exCtx2 exSession none exMain JSValue.undef none rfl
      (Or.inr (by decide))⟩

/-- C5: when the caller's context is the current top, `exitTopic`
removes exactly that top context (the stack shrinks by one and the new
top is the previous second-from-top, or there is no active context when
the stack became empty); if the removed context carried a continuation,
it is invoked with the new top context and the given result arguments
and its result is returned, otherwise the call returns `undefined` and
invokes nothing. -/
theorem c5_exit_pops_top [DecidableEq κ] (app : κ → State κ → JSValue → JSValue)
    (t : Option (Topic κ)) (ctx : Context κ) (session : ExtSession)
    (ys : YakSession κ) (args : JSValue)
    (htop : activeContext ys = some ctx) :
    (exitTopic app t ctx session ys args).session.contexts = ys.contexts.dropLast
    ∧ ys.contexts.length = (exitTopic app t ctx session ys args).session.contexts.length + 1
    ∧ activeContext (exitTopic app t ctx session ys args).session = ys.contexts.dropLast.getLast?
    ∧ (∀ k, ctx.cb = some k →
        (exitTopic app t ctx session ys args).outcome =
          .ok (app k { context := ys.contexts.dropLast.getLast?, session := session } args)
        ∧ (exitTopic app t ctx session ys args).events = [Event.contRun ctx.topicName])
    ∧ (ctx.cb = none →
        (exitTopic app t ctx session ys args).outcome = .ok JSValue.undef
        ∧ (exitTopic app t ctx session ys args).events = []) := by
  have hnil : ys.contexts ≠ [] := by
    intro h
    rw [activeContext, h] at htop
    simp at htop
  have hpos : 0 < ys.contexts.length := List.length_pos.mpr hnil
  have hlen : ys.contexts.length = ys.contexts.dropLast.length + 1 := by
    rw [List.length_dropLast]
    omega
  cases hcb : ctx.cb with
  | none =>
      have hexit : exitTopic app t ctx session ys args =
          { outcome := .ok JSValue.undef,
            session := { ys with contexts := ys.contexts.dropLast }, events := [] } := by
        unfold exitTopic
        rw [htop]
        simp [hcb]
      refine ⟨by rw [hexit], by rw [hexit]; exact hlen, by rw [hexit]; rfl, ?_, ?_⟩
      · intro k hk
        cases hk
      · intro _
        rw [hexit]
        exact ⟨rfl, rfl⟩
  | some k =>
      have hexit : exitTopic app t ctx session ys args =
          { outcome := .ok (app k { context := ys.contexts.dropLast.getLast?, session := session } args),
            session := { ys with contexts := ys.contexts.dropLast },
            events := [Event.contRun ctx.topicName] } := by
        unfold exitTopic
        rw [htop]
        simp [hcb, activeContext]
      refine ⟨by rw [hexit], by rw [hexit]; exact hlen, by rw [hexit]; rfl, ?_, ?_⟩
      · intro k2 hk2
        cases hk2
        rw [hexit]
        exact ⟨rfl, rfl⟩
      · intro hk
        cases hk

/-- C5 witness: exiting the concrete top context `exCtx2` (which
carries a continuation) pops it, leaves `exCtx1` as the new top, and
returns the continuation's result. -/
theorem c5_exit_pops_top_witness :
    activeContext exYs2 = some exCtx2 ∧
    ((exitTopic (fun _ st a => JSValue.arr [a, JSValue.bool st.context.isSome]) none exCtx2
        exSession exYs2 (JSValue.str "r")).session.contexts = exYs2.contexts.dropLast
    ∧ exYs2.contexts.length =
        (exitTopic (fun _ st a => JSValue.arr [a, JSValue.bool st.context.isSome]) none exCtx2
          exSession exYs2 (JSValue.str "r")).session.contexts.length + 1
    ∧ activeContext (exitTopic (fun _ st a => JSValue.arr [a, JSValue.bool st.context.isSome]) none exCtx2
        exSession exYs2 (JSValue.str "r")).session = exYs2.contexts.dropLast.getLast?
    ∧ (∀ k, exCtx2.cb = some k →
        (exitTopic (fun _ st a => JSValue.arr [a, JSValue.bool st.context.isSome]) none exCtx2
          exSession exYs2 (JSValue.str "r")).outcome =
          .ok ((fun (_ : Unit) (st : State Unit) (a : JSValue) =>
                JSValue.arr [a, JSValue.bool st.context.isSome]) k
              { context := exYs2.contexts.dropLast.getLast?, session := exSession } (JSValue.str "r"))
        ∧ (exitTopic (fun _ st a => JSValue.arr [a, JSValue.bool st.context.isSome]) none exCtx2
            exSession exYs2 (JSValue.str "r")).events = [Event.contRun exCtx2.topicName])
    ∧ (exCtx2.cb = none →
        (exitTopic (fun _ st a => JSValue.arr [a, JSValue.bool st.context.isSome]) none exCtx2
          exSession exYs2 (JSValue.str "r")).outcome = .ok JSValue.undef
        ∧ (exitTopic (fun _ st a => JSValue.arr [a, JSValue.bool st.context.isSome]) none exCtx2
            exSession exYs2 (JSValue.str "r")).events = [])) :=
  ⟨by decide,
    c5_exit_pops_top (fun _ st a => JSValue.arr [a, JSValue.bool st.context.isSome]) none exCtx2
      exSession exYs2 (JSValue.str "r") (by decide)⟩

/-- C6: entering a topic with `isRoot = false` (from the top context or
an empty stack) succeeds, grows the stack by exactly one, the new top
is the newly built context, and that context starts with empty
allow/deny hook lists and carries the given continuation; this holds
for every starting session, hence for each call of any sequence of such
calls. -/
theorem c6_nonroot_pushes [DecidableEq κ] (ys : YakSession κ) (ctx : Context κ)
    (session : ExtSession) (parentTopic : Option (Topic κ)) (newTopic : Topic κ)
    (args : JSValue) (cb : Option κ)
    (hroot : newTopic.isRoot = false)
    (hdisc : activeContext ys = none ∨ activeContext ys = some ctx) :
    (enterTopic parentTopic ctx session ys newTopic args cb).outcome = .ok ()
    ∧ (enterTopic parentTopic ctx session ys newTopic args cb).session.contexts =
        ys.contexts ++ [mkContext newTopic parentTopic session args cb]
    ∧ (enterTopic parentTopic ctx session ys newTopic args cb).session.contexts.length =
        ys.contexts.length + 1
    ∧ activeContext (enterTopic parentTopic ctx session ys newTopic args cb).session =
        some (mkContext newTopic parentTopic session args cb)
    ∧ (mkContext newTopic parentTopic session args cb).activeHooks = []
    ∧ (mkContext newTopic parentTopic session args cb).disabledHooks = []
    ∧ (mkContext newTopic parentTopic session args cb).cb = cb := by
  rw [enterTopic_eq_body parentTopic ctx session ys newTopic args cb hdisc]
  refine ⟨enterTopicBody_outcome .., ?_, ?_, ?_, rfl, rfl, rfl⟩
  · rw [enterTopicBody_session]; simp [hroot]
  · rw [enterTopicBody_session]; simp [hroot]
  · rw [enterTopicBody_session]; simp [hroot, activeContext]

/-- C6 witness: entering the non-root topic `exTopicT` from the top of
the concrete two-context stack pushes exactly one context. -/
theorem c6_nonroot_pushes_witness :
    exTopicT.isRoot = false ∧ activeContext exYs2 = some exCtx2 ∧
    ((enterTopic (some exMain) exCtx2 exSession exYs2 exTopicT JSValue.undef (some ())).outcome = .ok ()
    ∧ (enterTopic (some exMain) exCtx2 exSession exYs2 exTopicT JSValue.undef (some ())).session.contexts =
        exYs2.contexts ++ [mkContext exTopicT (some exMain) exSession JSValue.undef (some ())]
    ∧ (enterTopic (some exMain) exCtx2 exSession exYs2 exTopicT JSValue.undef (some ())).session.contexts.length =
        exYs2.contexts.length + 1
    ∧ activeContext (enterTopic (some exMain) exCtx2 exSession exYs2 exTopicT JSValue.undef (some ())).session =
        some (mkContext exTopicT (some exMain) exSession JSValue.undef (some ()))
    ∧ (mkContext exTopicT (some exMain) exSession JSValue.undef (some ())).activeHooks = []
    ∧ (mkContext exTopicT (some exMain) exSession JSValue.undef (some ())).disabledHooks = []
    ∧ (mkContext exTopicT (some exMain) exSession JSValue.undef (some ())).cb = some ()) :=
  ⟨rfl, by decide,
    c6_nonroot_pushes exYs2 exCtx2 exSession (some exMain) exTopicT JSValue.undef (some ()) rfl
      (Or.inr (by decide))⟩

/-! Helper lemmas about the dispatcher. -/

/-- A hook whose parse matches: `runHook` runs its handler. -/
theorem runHook_match (h : Hook κ) (st : State κ) (m : JSValue)
    (hm : h.parse st m ≠ JSValue.undef) :
    runHook h st m = ((true, h.handler st (h.parse st m)),
      [Event.parseRun h.name, Event.handlerRun h.name]) := by
  simp [runHook, hm]

/-- A hook whose parse returns undefined: `runHook` reports no match
and does not run the handler. -/
theorem runHook_nomatch (h : Hook κ) (st : State κ) (m : JSValue)
    (hm : h.parse st m = JSValue.undef) :
    runHook h st m = ((false, JSValue.undef), [Event.parseRun h.name]) := by
  simp [runHook, hm]

/-- The local loop stops at the first matching hook: preceding hooks
get only their parse run, the matching hook's handler result is
produced, and no later hook is touched. -/
theorem tryHooks_first_match (pre : List (Hook κ)) (h : Hook κ) (post : List (Hook κ))
    (st : State κ) (m : JSValue)
    (hpre : ∀ x ∈ pre, x.parse st m = JSValue.undef)
    (hm : h.parse st m ≠ JSValue.undef) :
    tryHooks (pre ++ h :: post) st m =
      ((true, h.handler st (h.parse st m)),
        pre.map (fun x => Event.parseRun x.name) ++
          [Event.parseRun h.name, Event.handlerRun h.name]) := by
  induction pre with
  | nil =>
      simp [tryHooks, runHook_match h st m hm]
  | cons a as ih =>
      have ha : a.parse st m = JSValue.undef := hpre a (List.mem_cons_self a as)
      have has : ∀ x ∈ as, x.parse st m = JSValue.undef :=
        fun x hx => hpre x (List.mem_cons_of_mem a hx)
      simp [tryHooks, runHook_nomatch a st m ha, ih has]

/-- When no hook of the local loop matches, it reports no match with an
undefined result, having run every parse in order. -/
theorem tryHooks_all_nomatch (hooks : List (Hook κ)) (st : State κ) (m : JSValue)
    (hall : ∀ x ∈ hooks, x.parse st m = JSValue.undef) :
    tryHooks hooks st m =
      ((false, JSValue.undef), hooks.map (fun x => Event.parseRun x.name)) := by
  induction hooks with
  | nil => simp [tryHooks]
  | cons a as ih =>
      have ha : a.parse st m = JSValue.undef := hall a (List.mem_cons_self a as)
      have has : ∀ x ∈ as, x.parse st m = JSValue.undef :=
        fun x hx => hall x (List.mem_cons_of_mem a hx)
      simp [tryHooks, runHook_nomatch a st m ha, ih has]

/-- When no hook of the global loop matches, it reports no match with
an undefined result. -/
theorem tryGlobalHooks_all_nomatch (hooks : List (Hook κ)) (co : Option (Context κ))
    (gctx : Context κ) (sess : ExtSession) (m : JSValue)
    (hall : ∀ x ∈ hooks,
      x.parse { context := some (co.getD gctx), session := sess } m = JSValue.undef) :
    (tryGlobalHooks hooks co gctx sess m).1 = (false, JSValue.undef) := by
  induction hooks with
  | nil => simp [tryGlobalHooks]
  | cons a as ih =>
      have ha := hall a (List.mem_cons_self a as)
      have has : ∀ x ∈ as, x.parse { context := some (co.getD gctx), session := sess } m = JSValue.undef :=
        fun x hx => hall x (List.mem_cons_of_mem a hx)
      by_cases hel : globalHookEligible co a.name
      · simp [tryGlobalHooks, hel, runHook_nomatch a _ m ha, ih has]
      · simp [tryGlobalHooks, hel, ih has]

/-- Every event the global loop emits belongs to a hook name that
passes the source's eligibility condition. -/
theorem tryGlobalHooks_events_eligible (hooks : List (Hook κ)) (co : Option (Context κ))
    (gctx : Context κ) (sess : ExtSession) (m : JSValue) :
    ∀ e ∈ (tryGlobalHooks hooks co gctx sess m).2,
      ∃ n, (e = Event.parseRun n ∨ e = Event.handlerRun n) ∧
        globalHookEligible co n = true := by
  induction hooks with
  | nil => intro e he; simp [tryGlobalHooks] at he
  | cons a as ih =>
      intro e he
      by_cases hel : globalHookEligible co a.name
      · by_cases hp : a.parse { context := some (co.getD gctx), session := sess } m = JSValue.undef
        · rw [tryGlobalHooks] at he
          simp only [hel, if_true, runHook_nomatch a _ m hp] at he
          simp at he
          rcases he with he | he
          · exact ⟨a.name, Or.inl (by rw [he]), hel⟩
          · exact ih e he
        · rw [tryGlobalHooks] at he
          simp only [hel, if_true, runHook_match a _ m hp] at he
          simp at he
          rcases he with he | he
          · exact ⟨a.name, Or.inl (by rw [he]), hel⟩
          · exact ⟨a.name, Or.inr (by rw [he]), hel⟩
      · rw [tryGlobalHooks] at he
        simp only [hel, if_false] at he
        exact ih e he

/-- The source's global-hook eligibility condition coincides with the
specification's three-case rule. -/
theorem globalHookEligible_eq_spec (co : Option (Context κ)) (n : String) :
    globalHookEligible co n = globalHookEligibleSpec co n := by
  cases co with
  | none => rfl
  | some c =>
      cases hA : c.activeHooks with
      | cons a as => simp [globalHookEligible, globalHookEligibleSpec, hA]
      | nil =>
          cases hD : c.disabledHooks with
          | nil => simp [globalHookEligible, globalHookEligibleSpec, hA, hD]
          | cons d ds => simp [globalHookEligible, globalHookEligibleSpec, hA, hD]

/-- The dispatch of a message whose first matching hook is local:
every earlier local hook gets only its parse run, the matching hook's
handler result is normalized and returned, and nothing later — local
or global — runs. -/
theorem processMessage_local_first_match (session : ExtSession) (message : JSValue)
    (ys : YakSession κ) (globalTopic : Option (Topic κ)) (gctx : Context κ)
    (c : Context κ) (t : Topic κ) (pre post : List (Hook κ)) (h : Hook κ)
    (hc : activeContext ys = some c)
    (ht : findTopic c.topicName ys.topics = some t)
    (hhooks : t.hooks = pre ++ h :: post)
    (hpre : ∀ x ∈ pre, x.parse { context := some c, session := session } message = JSValue.undef)
    (hm : h.parse { context := some c, session := session } message ≠ JSValue.undef) :
    processMessage session message ys globalTopic gctx =
      .ok (normalizeResult (h.handler { context := some c, session := session }
            (h.parse { context := some c, session := session } message)),
        pre.map (fun x => Event.parseRun x.name) ++
          [Event.parseRun h.name, Event.handlerRun h.name]) := by
  unfold processMessage
  rw [hc]
  simp only [ht, hhooks, tryHooks_first_match pre h post _ _ hpre hm]
  simp

/-- The dispatch of a message no hook matches, with an active context:
both phases run all their parses and the call returns normally. -/
theorem processMessage_no_match_some (session : ExtSession) (message : JSValue)
    (ys : YakSession κ) (gt : Topic κ) (gctx : Context κ) (c : Context κ) (t : Topic κ)
    (hc : activeContext ys = some c)
    (ht : findTopic c.topicName ys.topics = some t)
    (hloc : ∀ x ∈ t.hooks, x.parse { context := some c, session := session } message = JSValue.undef)
    (hglob : ∀ x ∈ gt.hooks, x.parse { context := some c, session := session } message = JSValue.undef) :
    processMessage session message ys (some gt) gctx =
      .ok ([], t.hooks.map (fun x => Event.parseRun x.name) ++
        (tryGlobalHooks gt.hooks (some c) gctx session message).2) := by
  unfold processMessage
  rw [hc]
  have hg : (tryGlobalHooks gt.hooks (some c) gctx session message).1 = (false, JSValue.undef) :=
    tryGlobalHooks_all_nomatch gt.hooks (some c) gctx session message (by simpa using hglob)
  simp only [ht, tryHooks_all_nomatch t.hooks _ message hloc]
  simp [hg, normalizeResult, truthy]

/-- The dispatch of a message no hook matches, with no active context:
only the global phase runs and the call returns normally. -/
theorem processMessage_no_match_none (session : ExtSession) (message : JSValue)
    (ys : YakSession κ) (gt : Topic κ) (gctx : Context κ)
    (hc : activeContext ys = none)
    (hglob : ∀ x ∈ gt.hooks, x.parse { context := some gctx, session := session } message = JSValue.undef) :
    processMessage session message ys (some gt) gctx =
      .ok ([], (tryGlobalHooks gt.hooks none gctx session message).2) := by
  unfold processMessage
  rw [hc]
  have hg : (tryGlobalHooks gt.hooks none gctx session message).1 = (false, JSValue.undef) :=
    tryGlobalHooks_all_nomatch gt.hooks none gctx session message (by simpa using hglob)
  simp [hg, normalizeResult, truthy]

/-- The global loop stops at the first eligible matching hook: each
earlier hook is either skipped as ineligible or fails to parse, and the
matching hook's handler result is produced. -/
theorem tryGlobalHooks_first_match (pre : List (Hook κ)) (h : Hook κ) (post : List (Hook κ))
    (co : Option (Context κ)) (gctx : Context κ) (sess : ExtSession) (m : JSValue)
    (hpre : ∀ x ∈ pre, globalHookEligible co x.name = false ∨
      x.parse { context := some (co.getD gctx), session := sess } m = JSValue.undef)
    (hel : globalHookEligible co h.name = true)
    (hm : h.parse { context := some (co.getD gctx), session := sess } m ≠ JSValue.undef) :
    (tryGlobalHooks (pre ++ h :: post) co gctx sess m).1 =
      (true, h.handler { context := some (co.getD gctx), session := sess }
        (h.parse { context := some (co.getD gctx), session := sess } m)) := by
  induction pre with
  | nil =>
      simp [tryGlobalHooks, hel, runHook_match h _ m hm]
  | cons a as ih =>
      have has : ∀ x ∈ as, globalHookEligible co x.name = false ∨
          x.parse { context := some (co.getD gctx), session := sess } m = JSValue.undef :=
        fun x hx => hpre x (List.mem_cons_of_mem a hx)
      rcases hpre a (List.mem_cons_self a as) with ha | ha
      · simp [tryGlobalHooks, ha, ih has]
      · by_cases hae : globalHookEligible co a.name
        · simp [tryGlobalHooks, hae, runHook_nomatch a _ m ha, ih has]
        · simp [tryGlobalHooks, hae, ih has]

/-- The dispatch of a message no local hook matches but the first
eligible matching global hook handles, with an active context: the
global handler's result is normalized and returned. -/
theorem processMessage_global_match_some (session : ExtSession) (message : JSValue)
    (ys : YakSession κ) (gt : Topic κ) (gctx : Context κ) (c : Context κ) (t : Topic κ)
    (pre post : List (Hook κ)) (h : Hook κ)
    (hc : activeContext ys = some c)
    (ht : findTopic c.topicName ys.topics = some t)
    (hloc : ∀ x ∈ t.hooks, x.parse { context := some c, session := session } message = JSValue.undef)
    (hghooks : gt.hooks = pre ++ h :: post)
    (hgpre : ∀ x ∈ pre, globalHookEligible (some c) x.name = false ∨
      x.parse { context := some c, session := session } message = JSValue.undef)
    (hel : globalHookEligible (some c) h.name = true)
    (hm : h.parse { context := some c, session := session } message ≠ JSValue.undef) :
    processMessage session message ys (some gt) gctx =
      .ok (normalizeResult (h.handler { context := some c, session := session }
            (h.parse { context := some c, session := session } message)),
        t.hooks.map (fun x => Event.parseRun x.name) ++
          (tryGlobalHooks gt.hooks (some c) gctx session message).2) := by
  unfold processMessage
  rw [hc]
  have hg : (tryGlobalHooks gt.hooks (some c) gctx session message).1 =
      (true, h.handler { context := some c, session := session }
        (h.parse { context := some c, session := session } message)) := by
    rw [hghooks]
    exact tryGlobalHooks_first_match pre h post (some c) gctx session message hgpre hel hm
  simp only [ht, tryHooks_all_nomatch t.hooks _ message hloc]
  simp [hg]

/-- The dispatch of a message with no active context that the first
matching global hook handles (every hook is eligible then): the global
handler's result is normalized and returned, the hook running with the
global context as its state. -/
theorem processMessage_global_match_none (session : ExtSession) (message : JSValue)
    (ys : YakSession κ) (gt : Topic κ) (gctx : Context κ)
    (pre post : List (Hook κ)) (h : Hook κ)
    (hc : activeContext ys = none)
    (hghooks : gt.hooks = pre ++ h :: post)
    (hgpre : ∀ x ∈ pre,
      x.parse { context := some gctx, session := session } message = JSValue.undef)
    (hm : h.parse { context := some gctx, session := session } message ≠ JSValue.undef) :
    processMessage session message ys (some gt) gctx =
      .ok (normalizeResult (h.handler { context := some gctx, session := session }
            (h.parse { context := some gctx, session := session } message)),
        (tryGlobalHooks gt.hooks none gctx session message).2) := by
  unfold processMessage
  rw [hc]
  have hg : (tryGlobalHooks gt.hooks none gctx session message).1 =
      (true, h.handler { context := some gctx, session := session }
        (h.parse { context := some gctx, session := session } message)) := by
    rw [hghooks]
    exact tryGlobalHooks_first_match pre h post none gctx session message
      (fun x hx => Or.inr (hgpre x hx)) rfl hm
  simp [hg]

/-- C3: hooks of the active context's topic are tried in declaration
order before any global hook; the first whose parse returns a defined
result has its handler run, and no later hook of either phase runs at
all — the trace is exactly the earlier local parses followed by the
matching hook's parse and handler.  In particular, with any global
topic (even one whose hooks would match), only the local hook's handler
is invoked. -/
theorem c3_local_phase_first_match (session : ExtSession) (message : JSValue)
    (ys : YakSession κ) (globalTopic : Option (Topic κ)) (gctx : Context κ)
    (c : Context κ) (t : Topic κ) (pre post : List (Hook κ)) (h : Hook κ)
    (hc : activeContext ys = some c)
    (ht : findTopic c.topicName ys.topics = some t)
    (hhooks : t.hooks = pre ++ h :: post)
    (hpre : ∀ x ∈ pre, x.parse { context := some c, session := session } message = JSValue.undef)
    (hm : h.parse { context := some c, session := session } message ≠ JSValue.undef) :
    processMessage session message ys globalTopic gctx =
      .ok (normalizeResult (h.handler { context := some c, session := session }
            (h.parse { context := some c, session := session } message)),
        pre.map (fun x => Event.parseRun x.name) ++
          [Event.parseRun h.name, Event.handlerRun h.name]) :=
  processMessage_local_first_match session message ys globalTopic gctx c t pre post h
    hc ht hhooks hpre hm

/-- A session whose stack holds only the `"main"` context `exCtx1`. -/
def exYs1 : YakSession Unit := ⟨"s1", "web", [exCtx1], false, exTopics⟩

/-- C3 witness: with local hooks `[exHookNo, exHookYes]` and a global
topic whose hook `exGHookA` would also match, the dispatch runs only
the local hooks' parses and `exHookYes`'s handler. -/
theorem c3_local_phase_first_match_witness :
    activeContext exYs1 = some exCtx1 ∧
    findTopic exCtx1.topicName exYs1.topics = some exMain ∧
    exMain.hooks = [exHookNo] ++ exHookYes :: [] ∧
    processMessage exSession (JSValue.str "m") exYs1 (some exGlobalTopic) (mkGlobalContext Unit) =
      .ok (normalizeResult (exHookYes.handler { context := some exCtx1, session := exSession }
            (exHookYes.parse { context := some exCtx1, session := exSession } (JSValue.str "m"))),
        [exHookNo].map (fun x => Event.parseRun x.name) ++
          [Event.parseRun exHookYes.name, Event.handlerRun exHookYes.name]) :=
  ⟨by decide, rfl, rfl,
    c3_local_phase_first_match exSession (JSValue.str "m") exYs1 (some exGlobalTopic)
      (mkGlobalContext Unit) exCtx1 exMain [exHookNo] [] exHookYes (by decide) rfl rfl
      (by decide) (by decide)⟩

/-- C4: in the global phase, a hook is run only when it is eligible,
and the source's eligibility condition is exactly the specified rule:
with an active context, a non-empty `activeHooks` must contain the
hook's name; otherwise a non-empty `disabledHooks` must not contain it;
otherwise (both empty) every hook is eligible, and with no active
context every hook is eligible. -/
theorem c4_global_hook_eligibility (κ : Type) :
    (∀ (co : Option (Context κ)) (n : String),
      globalHookEligible co n = globalHookEligibleSpec co n)
    ∧ (∀ (hooks : List (Hook κ)) (co : Option (Context κ)) (gctx : Context κ)
        (sess : ExtSession) (m : JSValue) (e : Event),
        e ∈ (tryGlobalHooks hooks co gctx sess m).2 →
        ∃ n, (e = Event.parseRun n ∨ e = Event.handlerRun n) ∧
          globalHookEligibleSpec co n = true) := by
  refine ⟨fun co n => globalHookEligible_eq_spec co n, ?_⟩
  intro hooks co gctx sess m e he
  rcases tryGlobalHooks_events_eligible hooks co gctx sess m e he with ⟨n, hn, hel⟩
  exact ⟨n, hn, by rw [← globalHookEligible_eq_spec]; exact hel⟩

/-- A context whose allow-list is `["a"]`. -/
def exCtxAllow : Context Unit :=
  { data := JSValue.undef, topicName := "main", parentTopicName := none,
    activeHooks := ["a"], disabledHooks := [], cb := none }

/-- C4 witness: with `activeHooks = ["a"]` and global hooks `a`, `b`
both matching, every event of the global phase names the eligible hook
`a` (hook `b` is never run). -/
theorem c4_global_hook_eligibility_witness :
    globalHookEligible (some exCtxAllow) "b" = globalHookEligibleSpec (some exCtxAllow) "b"
    ∧ Event.parseRun "a" ∈
        (tryGlobalHooks [exGHookA, exGHookB] (some exCtxAllow) (mkGlobalContext Unit)
          exSession (JSValue.str "m")).2
    ∧ ∃ n, (Event.parseRun "a" = Event.parseRun n ∨ Event.parseRun "a" = Event.handlerRun n) ∧
        globalHookEligibleSpec (some exCtxAllow) n = true :=
  ⟨(c4_global_hook_eligibility Unit).1 (some exCtxAllow) "b", by decide,
    (c4_global_hook_eligibility Unit).2 [exGHookA, exGHookB] (some exCtxAllow)
      (mkGlobalContext Unit) exSession (JSValue.str "m") (Event.parseRun "a") (by decide)⟩

/-- C7 (amended): for every dispatch, the result is the matched
handler's result normalized by the source's truthiness rule — a truthy
single value becomes a one-element sequence, an array becomes its own
elements, and a falsy handler result (undefined, null, false, 0, the
empty string) yields the empty sequence — exactly like "no hook
matched", which also yields the empty sequence without error.  The five
conjuncts cover every non-throwing dispatch: the first matching hook is
local (with an active context), or global (with an active context whose
local hooks all failed, or with no active context), or no hook matched
(with or without an active context). -/
theorem c7_result_normalization (κ : Type) :
    (∀ (session : ExtSession) (message : JSValue) (ys : YakSession κ)
        (globalTopic : Option (Topic κ)) (gctx : Context κ) (c : Context κ) (t : Topic κ)
        (pre post : List (Hook κ)) (h : Hook κ),
        activeContext ys = some c →
        findTopic c.topicName ys.topics = some t →
        t.hooks = pre ++ h :: post →
        (∀ x ∈ pre, x.parse { context := some c, session := session } message = JSValue.undef) →
        h.parse { context := some c, session := session } message ≠ JSValue.undef →
        ∃ ev, processMessage session message ys globalTopic gctx =
          .ok ((if truthy (h.handler { context := some c, session := session }
                    (h.parse { context := some c, session := session } message)) then
                  jsConcatSingle (h.handler { context := some c, session := session }
                    (h.parse { context := some c, session := session } message))
                else []), ev))
    ∧ (∀ (session : ExtSession) (message : JSValue) (ys : YakSession κ)
        (gt : Topic κ) (gctx : Context κ) (c : Context κ) (t : Topic κ)
        (pre post : List (Hook κ)) (h : Hook κ),
        activeContext ys = some c →
        findTopic c.topicName ys.topics = some t →
        (∀ x ∈ t.hooks, x.parse { context := some c, session := session } message = JSValue.undef) →
        gt.hooks = pre ++ h :: post →
        (∀ x ∈ pre, globalHookEligible (some c) x.name = false ∨
          x.parse { context := some c, session := session } message = JSValue.undef) →
        globalHookEligible (some c) h.name = true →
        h.parse { context := some c, session := session } message ≠ JSValue.undef →
        ∃ ev, processMessage session message ys (some gt) gctx =
          .ok ((if truthy (h.handler { context := some c, session := session }
                    (h.parse { context := some c, session := session } message)) then
                  jsConcatSingle (h.handler { context := some c, session := session }
                    (h.parse { context := some c, session := session } message))
                else []), ev))
    ∧ (∀ (session : ExtSession) (message : JSValue) (ys : YakSession κ)
        (gt : Topic κ) (gctx : Context κ) (pre post : List (Hook κ)) (h : Hook κ),
        activeContext ys = none →
        gt.hooks = pre ++ h :: post →
        (∀ x ∈ pre, x.parse { context := some gctx, session := session } message = JSValue.undef) →
        h.parse { context := some gctx, session := session } message ≠ JSValue.undef →
        ∃ ev, processMessage session message ys (some gt) gctx =
          .ok ((if truthy (h.handler { context := some gctx, session := session }
                    (h.parse { context := some gctx, session := session } message)) then
                  jsConcatSingle (h.handler { context := some gctx, session := session }
                    (h.parse { context := some gctx, session := session } message))
                else []), ev))
    ∧ (∀ (session : ExtSession) (message : JSValue) (ys : YakSession κ)
        (gt : Topic κ) (gctx : Context κ) (c : Context κ) (t : Topic κ),
        activeContext ys = some c →
        findTopic c.topicName ys.topics = some t →
        (∀ x ∈ t.hooks, x.parse { context := some c, session := session } message = JSValue.undef) →
        (∀ x ∈ gt.hooks, x.parse { context := some c, session := session } message = JSValue.undef) →
        ∃ ev, processMessage session message ys (some gt) gctx = .ok ([], ev))
    ∧ (∀ (session : ExtSession) (message : JSValue) (ys : YakSession κ)
        (gt : Topic κ) (gctx : Context κ),
        activeContext ys = none →
        (∀ x ∈ gt.hooks, x.parse { context := some gctx, session := session } message = JSValue.undef) →
        ∃ ev, processMessage session message ys (some gt) gctx = .ok ([], ev)) := by
  refine ⟨?_, ?_, ?_, ?_, ?_⟩
  · intro session message ys globalTopic gctx c t pre post h hc ht hhooks hpre hm
    refine ⟨pre.map (fun x => Event.parseRun x.name) ++
      [Event.parseRun h.name, Event.handlerRun h.name], ?_⟩
    rw [processMessage_local_first_match session message ys globalTopic gctx c t pre post h
      hc ht hhooks hpre hm]
    rfl
  · intro session message ys gt gctx c t pre post h hc ht hloc hghooks hgpre hel hm
    refine ⟨t.hooks.map (fun x => Event.parseRun x.name) ++
      (tryGlobalHooks gt.hooks (some c) gctx session message).2, ?_⟩
    rw [processMessage_global_match_some session message ys gt gctx c t pre post h
      hc ht hloc hghooks hgpre hel hm]
    rfl
  · intro session message ys gt gctx pre post h hc hghooks hgpre hm
    refine ⟨(tryGlobalHooks gt.hooks none gctx session message).2, ?_⟩
    rw [processMessage_global_match_none session message ys gt gctx pre post h
      hc hghooks hgpre hm]
    rfl
  · intro session message ys gt gctx c t hc ht hloc hglob
    exact ⟨_, processMessage_no_match_some session message ys gt gctx c t hc ht hloc hglob⟩
  · intro session message ys gt gctx hc hglob
    exact ⟨_, processMessage_no_match_none session message ys gt gctx hc hglob⟩

/-- A session with an empty context stack. -/
def exYsEmpty : YakSession Unit := ⟨"s1", "web", [], false, exTopics⟩

/-- A session whose only context is `exCtx2`, activating the hookless
topic `"t"`. -/
def exYsT : YakSession Unit := ⟨"s1", "web", [exCtx2], false, exTopics⟩

/-- C7 witness: first, a dispatch handled by the global phase — the
active context's topic has no hooks and the eligible global hook
`exGHookA` matches, so its handler's (truthy) result comes back
normalized; second, a dispatch with no active context and a hookless
global topic — no hook matches, no error is raised, and the result is
the empty sequence. -/
theorem c7_result_normalization_witness :
    (activeContext exYsT = some exCtx2 ∧
     findTopic exCtx2.topicName exYsT.topics = some exTopicT ∧
     exGlobalTopic.hooks = [] ++ exGHookA :: [exGHookB] ∧
     globalHookEligible (some exCtx2) exGHookA.name = true ∧
     ∃ ev, processMessage exSession (JSValue.str "m") exYsT (some exGlobalTopic)
        (mkGlobalContext Unit) =
       .ok ((if truthy (exGHookA.handler { context := some exCtx2, session := exSession }
                 (exGHookA.parse { context := some exCtx2, session := exSession }
                   (JSValue.str "m"))) then
               jsConcatSingle (exGHookA.handler { context := some exCtx2, session := exSession }
                 (exGHookA.parse { context := some exCtx2, session := exSession }
                   (JSValue.str "m")))
             else []), ev))
    ∧ (activeContext exYsEmpty = none ∧
       ∃ ev, processMessage exSession (JSValue.str "m") exYsEmpty (some exTopicT)
         (mkGlobalContext Unit) = .ok ([], ev)) :=
  ⟨⟨by decide, rfl, rfl, by decide,
    (c7_result_normalization Unit).2.1 exSession (JSValue.str "m") exYsT exGlobalTopic
      (mkGlobalContext Unit) exCtx2 exTopicT [] [exGHookB] exGHookA (by decide) rfl
      (by decide) rfl (by decide) (by decide) (by decide)⟩,
   ⟨by decide,
    (c7_result_normalization Unit).2.2.2.2 exSession (JSValue.str "m") exYsEmpty exTopicT
      (mkGlobalContext Unit) (by decide) (by decide)⟩⟩

/-- A local hook that matches and whose handler returns the falsy
number `0`. -/
def exZeroHook : Hook Unit :=
  { name := "z", parse := fun _ _ => JSValue.num 1, handler := fun _ _ => JSValue.num 0 }

/-- A topic carrying only `exZeroHook`. -/
def exZeroTopic : Topic Unit :=
  { name := "zt", isRoot := false, init := fun _ _ => JSValue.undef,
    callbacks := none, hooks := [exZeroHook], afterInit := none }

/-- The active context for `exZeroTopic`. -/
def exCtxZero : Context Unit :=
  { data := JSValue.undef, topicName := "zt", parentTopicName := none,
    activeHooks := [], disabledHooks := [], cb := none }

/-- A session whose active context is `exCtxZero`. -/
def exYsZero : YakSession Unit := ⟨"s1", "web", [exCtxZero], false, [exZeroTopic]⟩

/-- C7 counterexample: `exZeroHook` matches (its parse returns `1`) and
its handler returns the single result `0`, yet the dispatch returns the
empty sequence, not the one-element sequence `[0]` the claim requires —
`[].concat` is only applied to truthy handler results. -/
theorem c7_result_normalization_counterexample :
    processMessage exSession (JSValue.str "m") exYsZero (some exGlobalTopic)
      (mkGlobalContext Unit) =
        .ok ([], [Event.parseRun "z", Event.handlerRun "z"])
    ∧ ([] : List JSValue) ≠ [JSValue.num 0] :=
  ⟨rfl, by decide⟩

/-- C9 counterexample: the pattern hook built from `[/foo/, /bar/]`
applied to the message text `"barfoo"` returns the match for pattern
index 0 — the patterns are tried in list order and `/foo/` already
matches `"barfoo"` — so it does not return index 1 as the claim
states. -/
theorem c9_pattern_order_counterexample :
    (((defPattern exTopicT "greet" [regexLit "foo", regexLit "bar"]
        (fun _ _ => JSValue.undef)).parse { context := none, session := exSession }
        (some ⟨"barfoo"⟩)).map RegexParseResult.i = some 0)
    ∧ ¬(((defPattern exTopicT "greet" [regexLit "foo", regexLit "bar"]
        (fun _ _ => JSValue.undef)).parse { context := none, session := exSession }
        (some ⟨"barfoo"⟩)).map RegexParseResult.i = some 1) :=
  ⟨by decide, by decide⟩

/-- C9 (amended): a pattern hook built by `defPattern` from
`[/foo/, /bar/]` applied to a message whose text is `"barfoo"` returns
a match with pattern index 0 (the `/foo/` pattern): the parse loop
tries the patterns in declaration order and returns the first whose
`exec` succeeds anywhere in the text. -/
theorem c9_pattern_order (κ : Type) (topic : Topic κ) (hookName : String)
    (handler : State κ → RegexParseResult → JSValue) (st : State κ) :
    ((defPattern topic hookName [regexLit "foo", regexLit "bar"] handler).parse st
      (some ⟨"barfoo"⟩)).map RegexParseResult.i = some 0 := by
  rfl

/-- The accumulator of the `"single"` loop never reaches the final
result when the batch ends in a message whose dispatch succeeds: the
loop returns the last message's result and the concatenated traces. -/
theorem processBatchSingle_last_wins (session : ExtSession) (ys : YakSession κ)
    (globalTopic : Option (Topic κ)) (gctx : Context κ) (fmt : Formatter)
    (ms : List JSValue) (mlast : JSValue) (res : List JSValue) (ev : List Event)
    (hlast : processMessage session (fmt.parseIncomingMessage mlast) ys globalTopic gctx =
      .ok (res, ev))
    (hok : ∀ m ∈ ms, ∃ v, processMessage session (fmt.parseIncomingMessage m) ys globalTopic gctx =
      .ok v) :
    ∀ acc, processBatchSingle session ys globalTopic gctx fmt (ms ++ [mlast]) acc =
      .ok (res, ((ms ++ [mlast]).map (pmEvents session ys globalTopic gctx fmt)).flatten) := by
  induction ms with
  | nil =>
      intro acc
      simp [processBatchSingle, hlast, pmEvents, truthy]
  | cons m rest ih =>
      intro acc
      obtain ⟨⟨r1, e1⟩, hm⟩ := hok m (List.mem_cons_self m rest)
      have hok1 : ∀ x ∈ rest, ∃ v,
          processMessage session (fmt.parseIncomingMessage x) ys globalTopic gctx = .ok v :=
        fun x hx => hok x (List.mem_cons_of_mem m hx)
      have ihr := ih hok1 (if truthy (JSValue.arr r1) then r1 else acc)
      simp only [List.cons_append]
      rw [processBatchSingle]
      simp only [hm]
      rw [ihr]
      simp [pmEvents, hm]

/-- C10: under the `"single"` strategy, a batch ending in `mlast`
(two or more messages: `ms` is non-empty) processes each message in
order — the trace is the in-order concatenation of every message's
dispatch trace — but returns only the outgoing-message sequence `res`
of the last message, whatever the earlier messages produced (the start
accumulator `[]`, like every earlier result, is discarded), even when
`res` is empty. -/
theorem c10_single_strategy_keeps_last (session : ExtSession) (ys : YakSession κ)
    (globalTopic : Option (Topic κ)) (gctx : Context κ) (fmt : Formatter)
    (ms : List JSValue) (mlast : JSValue) (res : List JSValue) (ev : List Event)
    ( _batchTwoOrMore : ms ≠ [])
    (hok : ∀ m ∈ ms, ∃ v, processMessage session (fmt.parseIncomingMessage m) ys globalTopic gctx =
      .ok v)
    (hlast : processMessage session (fmt.parseIncomingMessage mlast) ys globalTopic gctx =
      .ok (res, ev)) :
    processBatchSingle session ys globalTopic gctx fmt (ms ++ [mlast]) [] =
      .ok (res, ((ms ++ [mlast]).map (pmEvents session ys globalTopic gctx fmt)).flatten) :=
  processBatchSingle_last_wins session ys globalTopic gctx fmt ms mlast res ev hlast hok []

/-- A hook that echoes the incoming message. -/
def exEchoHook : Hook Unit :=
  { name := "echo", parse := fun _ m => m, handler := fun _ p => p }

/-- A topic carrying only the echo hook. -/
def exEchoTopic : Topic Unit :=
  { name := "et", isRoot := false, init := fun _ _ => JSValue.undef,
    callbacks := none, hooks := [exEchoHook], afterInit := none }

/-- The active context for the echo topic. -/
def exCtxEcho : Context Unit :=
  { data := JSValue.undef, topicName := "et", parentTopicName := none,
    activeHooks := [], disabledHooks := [], cb := none }

/-- A session whose active context is the echo context. -/
def exYsEcho : YakSession Unit := ⟨"s1", "web", [exCtxEcho], false, [exEchoTopic]⟩

/-- C10 witness: the batch `["x", "hello"]` under the `"single"`
strategy returns only `["hello"]`, the last message's result. -/
theorem c10_single_strategy_keeps_last_witness :
    ([JSValue.str "x"] : List JSValue) ≠ [] ∧
    processBatchSingle exSession exYsEcho (some exGlobalTopic) (mkGlobalContext Unit) exFmt
        ([JSValue.str "x"] ++ [JSValue.str "hello"]) [] =
      .ok ([JSValue.str "hello"],
        (([JSValue.str "x"] ++ [JSValue.str "hello"]).map
          (pmEvents exSession exYsEcho (some exGlobalTopic) (mkGlobalContext Unit) exFmt)).flatten) :=
  ⟨by decide,
    c10_single_strategy_keeps_last exSession exYsEcho (some exGlobalTopic)
      (mkGlobalContext Unit) exFmt [JSValue.str "x"] (JSValue.str "hello")
      [JSValue.str "hello"] [Event.parseRun "echo", Event.handlerRun "echo"]
      (by decide)
      (by
        intro m hm
        rw [List.mem_singleton] at hm
        subst hm
        exact ⟨([JSValue.str "x"], [Event.parseRun "echo", Event.handlerRun "echo"]), rfl⟩)
      rfl⟩

/-- The `enterTopic` call the handler's virgin branch makes for a
loaded session `s`: caller context is the global context, the stack is
`s`'s with the virgin flag already cleared and the current registry
spliced in, the entered topic is the registered `"main"` topic, with
undefined arguments and no continuation (source lines 256-267). -/
def virginBoot [DecidableEq κ] (allTopics : List (Topic κ)) (s : YakSession κ)
    (session : ExtSession) (mainTopic : Topic κ) : CallResult κ Unit :=
  enterTopic (findTopic "global" allTopics) (mkGlobalContext κ) session
    { s with topics := allTopics.filter (fun t => t.name ≠ "global"), virgin := false }
    mainTopic JSValue.undef none

/-- C8 (amended): a handler call on a loaded session whose virgin flag
is true clears the flag and, `"main"` being registered, enters it via
`enterTopic` as the first context (the stack becomes exactly the newly
built main context) — and then the incoming message IS processed: the
call's result is the dispatch's result and the dispatch's trace follows
the bootstrap trace.  (Message processing is not bypassed.) -/
theorem c8_virgin_bootstrap [DecidableEq κ] (allTopics : List (Topic κ))
    (options : InitOptions) (formatters : String → Option Formatter)
    (s : YakSession κ) (session : ExtSession) (messages : List JSValue)
    (mainTopic : Topic κ) (fmt : Formatter) (res : List JSValue) (ev : List Event)
    (hvirgin : s.virgin = true)
    (hempty : s.contexts = [])
    (hmain : findTopic "main" (allTopics.filter (fun t => t.name ≠ "global")) = some mainTopic)
    (hstrat : options.messageOptions = none)
    (hfmt : formatters session.type = some fmt)
    (hpm : processMessage session
        (fmt.parseIncomingMessage ((messages.getLast?).getD JSValue.undef))
        (virginBoot allTopics s session mainTopic).session
        (findTopic "global" allTopics) (mkGlobalContext κ) = .ok (res, ev)) :
    (virginBoot allTopics s session mainTopic).outcome = .ok ()
    ∧ (virginBoot allTopics s session mainTopic).session.virgin = false
    ∧ (virginBoot allTopics s session mainTopic).session.contexts =
        [mkContext mainTopic (findTopic "global" allTopics) session JSValue.undef none]
    ∧ handleMessages allTopics options formatters (some s) session messages =
        .ok ((virginBoot allTopics s session mainTopic).session, res,
          (virginBoot allTopics s session mainTopic).events ++ ev) := by
  have hdisc : activeContext
      ({ s with topics := allTopics.filter (fun t => t.name ≠ "global"), virgin := false } :
        YakSession κ) = none := by
    simp [activeContext, hempty]
  have hbody : virginBoot allTopics s session mainTopic =
      enterTopicBody (findTopic "global" allTopics) session
        { s with topics := allTopics.filter (fun t => t.name ≠ "global"), virgin := false }
        mainTopic JSValue.undef none :=
    enterTopic_eq_body _ _ _ _ _ _ _ (Or.inl hdisc)
  have houtcome : (virginBoot allTopics s session mainTopic).outcome = .ok () := by
    rw [hbody]; exact enterTopicBody_outcome ..
  have hsession : (virginBoot allTopics s session mainTopic).session =
      { s with
          topics := allTopics.filter (fun t => t.name ≠ "global")
          virgin := false
          contexts := if mainTopic.isRoot
            then [mkContext mainTopic (findTopic "global" allTopics) session JSValue.undef none]
            else s.contexts ++
              [mkContext mainTopic (findTopic "global" allTopics) session JSValue.undef none] } := by
    rw [hbody, enterTopicBody_session]
  refine ⟨houtcome, ?_, ?_, ?_⟩
  · rw [hsession]
  · rw [hsession]
    simp [hempty]
  · have houtcome2 := houtcome
    have hpm2 := hpm
    unfold virginBoot at houtcome2 hpm2
    unfold handleMessages virginBoot
    simp only [loadYakSession, hstrat, Option.getD_none, hvirgin, if_true, hmain, houtcome2,
      hfmt, hpm2]

/-- C8 witness: a concrete virgin session with `"main"` registered:
the handler clears the flag, enters `"main"`, and then dispatches the
message through the hooks. -/
theorem c8_virgin_bootstrap_witness :
    exVirginSession.virgin = true ∧ exVirginSession.contexts = [] ∧
    findTopic "main" (exTopics.filter (fun t => t.name ≠ "global")) = some exMain ∧
    ((virginBoot exTopics exVirginSession exSession exMain).outcome = .ok ()
    ∧ (virginBoot exTopics exVirginSession exSession exMain).session.virgin = false
    ∧ (virginBoot exTopics exVirginSession exSession exMain).session.contexts =
        [mkContext exMain (findTopic "global" exTopics) exSession JSValue.undef none]
    ∧ handleMessages exTopics ⟨none, none, none⟩ (fun _ => some exFmt)
        (some exVirginSession) exSession [JSValue.str "hello"] =
        .ok ((virginBoot exTopics exVirginSession exSession exMain).session,
          [JSValue.str "hi"],
          (virginBoot exTopics exVirginSession exSession exMain).events ++
            [Event.parseRun "no", Event.parseRun "yes", Event.handlerRun "yes"])) :=
  ⟨rfl, rfl, rfl,
    c8_virgin_bootstrap exTopics ⟨none, none, none⟩ (fun _ => some exFmt) exVirginSession
      exSession [JSValue.str "hello"] exMain exFmt [JSValue.str "hi"]
      [Event.parseRun "no", Event.parseRun "yes", Event.handlerRun "yes"]
      rfl rfl rfl rfl rfl rfl⟩

/-- C8 counterexample: on a virgin session, the handler does NOT bypass
message processing — on this concrete virgin call the trace contains a
hook dispatch (`exHookYes`'s handler runs right after the `"main"`
bootstrap), refuting the claim's "no hook dispatch occurs during that
call". -/
theorem c8_virgin_bootstrap_counterexample :
    exVirginSession.virgin = true ∧
    Event.handlerRun "yes" ∈
      runEvents (handleMessages exTopics ⟨none, none, none⟩ (fun _ => some exFmt)
        (some exVirginSession) exSession [JSValue.str "hello"]) :=
  ⟨rfl, by decide⟩

end WildYak
